import Mathlib

/-!
Verification development for the n8n Temporal workflow execution engine
(`packages/@n8n/temporal-worker/src/workflows/workflow-execution.ts`).

The TypeScript engine is embedded shallowly:

* JavaScript runtime values (`unknown`) become the inductive type `JVal`
  (null, string, number, array, object-as-ordered-association-list).
* JavaScript `Record<string, T>` objects become ordered association lists
  with JS semantics: property write updates an existing key in place and
  otherwise appends; property read returns the first match or `undefined`
  (modelled as `Option`).
* The Temporal activity boundary (`proxyActivities` calls) is modelled by
  an oracle `Nat → ActResult` consulted once per activity invocation, in
  call order; `ActResult.err` models the host surfacing an
  `ActivityFailure` (thrown from `await`), `ActResult.ok v` a normal
  completion with result value `v`.
* The recursive driver `executeNodeRecursive` becomes a fuel-indexed
  interpreter; running out of fuel is reported by a dedicated constructor
  so that nontermination is never confused with normal return or with an
  exception.
* `workflow.log.info('Executing node', ...)` (the per-node log line at the
  top of `executeNodeRecursive`) is reflected as the ghost field
  `ExecSt.execLog`, and each activity invocation is reflected in the ghost
  field `ExecSt.trace`; both record observable behavior of the source and
  carry no influence on control flow or data flow.
-/

/-- JavaScript runtime values as used by the engine: `null`, strings,
numbers (the engine only ever compares and indexes with integers), arrays,
and plain objects with ordered string keys. -/
inductive JVal : Type where
  | null : JVal
  | str : String → JVal
  | num : Int → JVal
  | arr : List JVal → JVal
  | obj : List (String × JVal) → JVal
deriving Repr

/-- First-match lookup in an ordered association list: JS property read
`o[k]`, with `none` for `undefined`. -/
def lookupA {α : Type} : List (String × α) → String → Option α
  | [], _ => none
  | (k', v) :: rest, k => if k' = k then some v else lookupA rest k

/-- JS property write `o[k] = v`: updates an existing key in place,
otherwise appends the new key at the end. -/
def setA {α : Type} : List (String × α) → String → α → List (String × α)
  | [], k, v => [(k, v)]
  | (k', v') :: rest, k, v =>
    if k' = k then (k, v) :: rest else (k', v') :: setA rest k v

/-- JS truthiness of a value: `null`, `""` and `0` are falsy; every array
and every object (including `[]` and `{}`) is truthy. -/
def truthy : JVal → Bool
  | .null => false
  | .str s => !(s = "")
  | .num n => !(n = 0)
  | .arr _ => true
  | .obj _ => true

/-- JS truthiness of a possibly-`undefined` value. -/
def truthyOpt : Option JVal → Bool
  | none => false
  | some v => truthy v

/-- JS property access `v.k` on an arbitrary value: only objects have
(own) string-keyed properties; everything else yields `undefined`. -/
def jsGet : JVal → String → Option JVal
  | .obj fields, k => lookupA fields k
  | _, _ => none

/-- JS numeric indexing `v[i]`: arrays index positionally, objects look up
the decimal-string key, strings index to one-character strings, everything
else yields `undefined`. -/
def jsIndexNat : JVal → Nat → Option JVal
  | .arr l, i => l.get? i
  | .obj fields, i => lookupA fields (toString i)
  | .str s, i => (s.data.get? i).map (fun c => .str (String.mk [c]))
  | _, _ => none

/-- Embedding of `parseInt(s, 10)`: parse the longest leading run of decimal digits;
`none` models `NaN` when no digit leads. -/
def jsParseInt (s : String) : Option Nat :=
  let ds := s.data.takeWhile Char.isDigit
  if ds.isEmpty then none
  else some (ds.foldl (fun acc c => acc * 10 + (c.toNat - 48)) 0)

/-- Embedding of `INode`: the fields of a workflow node that the engine reads
(`id`, `name`, `type`, `disabled`) plus the opaque parameter bag passed
through to activities; cosmetic fields (`position`, `notes`,
`typeVersion`) are never read by the engine and are omitted. -/
structure INode where
  id : String
  name : String
  type : String
  disabled : Bool
  parameters : JVal
deriving Repr

/-- One entry of a connection array:
`{ node: targetName, type: connectionKind, index: targetInputIndex }`. -/
structure Conn where
  node : String
  type : Int
  index : Nat
deriving Repr, DecidableEq

/-- The value of one source node's entry in `IConnections`: an object
keyed by output index (a decimal string) whose values are
`Array<Array<Conn>>`, kept in JS enumeration order. -/
abbrev ConnEntry := List (String × List (List Conn))

/-- Embedding of `IConnections`: the connection table keyed by source node name, kept
in JS enumeration order. -/
abbrev Connections := List (String × ConnEntry)

/-- First loop nest of `findStartNodes`: collect the target name of every
connection in the table (`nodesWithIncomingConnections`), modelled as the
list of names added to the set in iteration order. -/
def connectionTargets (connections : Connections) : List String :=
  connections.foldl (fun acc e =>
    e.2.foldl (fun acc2 oc =>
      oc.2.foldl (fun acc3 connectionArray =>
        connectionArray.foldl (fun acc4 connection =>
          acc4 ++ [connection.node]) acc3) acc2) acc) []

/-- Embedding of `findStartNodes`: return the nodes whose name never occurs as a
connection target (nodes with no incoming connection of any kind). -/
def findStartNodes (nodes : List INode) (connections : Connections) :
    List INode :=
  nodes.filter (fun node => !(connectionTargets connections).contains node.name)

/-- Embedding of `getNextNodes`: resolve each connection leaving `node` to a node of
`allNodes` by name, dropping unresolved (dangling) targets and
deduplicating by node id, preserving first-occurrence order. -/
def getNextNodes (node : INode) (allNodes : List INode)
    (connections : Connections) : List INode :=
  match lookupA connections node.name with
  | none => []
  | some nodeConnections =>
    nodeConnections.foldl (fun nn oc =>
      oc.2.foldl (fun nn2 connectionArray =>
        connectionArray.foldl (fun nn3 connection =>
          match allNodes.find? (fun n => n.name == connection.node) with
          | none => nn3
          | some nextNode =>
            if (nn3.find? (fun n => n.id == nextNode.id)).isSome then nn3
            else nn3 ++ [nextNode]) nn2) nn) []

/-- Embedding of `getNodeInputData`: scan the whole connection table for connections
targeting `node.name`; for each, look up the source node by name, read its
stored run data, and when `sourceOutput.main` and
`sourceOutput.main[parseInt(outputIndex)]` are both truthy, write that
slice into the input object under the target input index
(`connection.index.toString()`), later writes to the same key replacing
earlier ones. -/
def getNodeInputData (node : INode) (allNodes : List INode)
    (connections : Connections) (runData : List (String × JVal)) : JVal :=
  .obj <| connections.foldl (fun inputData e =>
    e.2.foldl (fun inp oc =>
      oc.2.foldl (fun inp2 connectionArray =>
        connectionArray.foldl (fun inp3 connection =>
          if connection.node == node.name then
            match allNodes.find? (fun n => n.name == e.1) with
            | none => inp3
            | some sourceNode =>
              match lookupA runData sourceNode.id with
              | none => inp3
              | some sourceOutput =>
                if truthy sourceOutput then
                  let mainOpt := jsGet sourceOutput "main"
                  let sliceOpt :=
                    match mainOpt, jsParseInt oc.1 with
                    | some mainVal, some i => jsIndexNat mainVal i
                    | _, _ => none
                  if truthyOpt mainOpt && truthyOpt sliceOpt then
                    match sliceOpt with
                    | some slice =>
                      setA inp3 (toString connection.index) slice
                    | none => inp3
                  else inp3
                else inp3
          else inp3) inp2) inp) inputData) []

/-- The node types for which `proxyActivities` registers an activity
handler (the twenty `else if` branches of `executeNodeRecursive` that call
`activitiesProxy[...]`). -/
def activityTypes : List String :=
  ["n8n-nodes-base.httpRequest", "n8n-nodes-base.generateFlowFile",
   "n8n-nodes-base.updateAttribute", "n8n-nodes-base.mergeContent",
   "n8n-nodes-base.extractText", "n8n-nodes-base.convertRecord",
   "n8n-nodes-base.splitJson", "n8n-nodes-base.replaceText",
   "n8n-nodes-base.putEmail", "n8n-nodes-base.executeSql",
   "n8n-nodes-base.putSql", "n8n-nodes-base.queryRecord",
   "n8n-nodes-base.jslTransformJson", "n8n-nodes-base.joltTransformJson",
   "n8n-nodes-base.routeOnAttribute", "n8n-nodes-base.mergeRecord",
   "n8n-nodes-base.splitRecord", "n8n-nodes-base.modifyBytes",
   "n8n-nodes-base.logAttribute", "n8n-nodes-base.evaluateJsonPath"]

/-- Result of one activity invocation at the Temporal boundary: a value,
or a failure thrown from the `await` after the host exhausts its retries. -/
inductive ActResult : Type where
  | ok : JVal → ActResult
  | err : String → ActResult
deriving Repr

/-- The activity boundary: response to the `k`-th activity call of the
invocation (`k` counted from 0 in call order). -/
abbrev Oracle := Nat → ActResult

/-- Execution state threaded through `executeNodeRecursive`: the mutable
`runData` record, plus two ghost observation logs — `trace` records each
activity invocation (the node and the `inputs` of its `ExecutionContext`,
in call order) and `execLog` records the id of every non-disabled node the
driver visits (the `'Executing node'` log line). -/
structure ExecSt where
  runData : List (String × JVal)
  trace : List (INode × JVal)
  execLog : List String
deriving Repr

/-- Outcome of a (sub)execution: normal return, an exception propagating
out of the JS function (`exn`, carrying the message and, as ghost data,
the state at the throw point), or fuel exhaustion of the model
(`fuelOut`). -/
inductive ExecRes : Type where
  | ok : ExecSt → ExecRes
  | exn : String → ExecSt → ExecRes
  | fuelOut : ExecSt → ExecRes
deriving Repr

/-- The state carried by any outcome. -/
def ExecRes.st : ExecRes → ExecSt
  | .ok s => s
  | .exn _ s => s
  | .fuelOut s => s

/-- Embedding of `Array.isArray(outputData) ? outputData : [[outputData]]` wrapped
under the `main` key: the shape stored into `runData`. -/
def wrapOutput (outputData : JVal) : JVal :=
  .obj [("main", match outputData with
    | .arr l => .arr l
    | v => .arr [.arr [v]])]

/-- Embedding of `inputData || [{ json: {} }]` in the trigger-node branch:
JS `||` returns the left operand when truthy. -/
def jsOr (a b : JVal) : JVal := if truthy a then a else b

/-- The fallback of the trigger-node branch, `[{ json: {} }]`. -/
def emptyItem : JVal := .arr [.obj [("json", .obj [])]]

/-- The body of `executeNodeRecursive` up to (but not including) the
recursive loop over `getNextNodes`: skip disabled nodes without any
effect; log the visit; aggregate input with `getNodeInputData`; dispatch
on `node.type` — a registered activity type invokes the activity boundary
(an activity failure propagates as an exception from the `await`), the
trigger types `manualTrigger`/`webhook` pass the input through (the
`|| [{json: {}}]` fallback is kept verbatim), and any other type passes
the input through unchanged — finally store a non-null output into
`runData` under `node.id` wrapped by `wrapOutput`. Returns `.ok` with the
updated state (for the driver to continue into the children), or `.exn`
on an activity failure. -/
def stepNode (oracle : Oracle) (allNodes : List INode)
    (connections : Connections) (node : INode) (st : ExecSt) : ExecRes :=
  if node.disabled then .ok st
  else
    let st1 : ExecSt := { st with execLog := st.execLog ++ [node.id] }
    let inputData := getNodeInputData node allNodes connections st1.runData
    if activityTypes.contains node.type then
      let st2 : ExecSt := { st1 with trace := st1.trace ++ [(node, inputData)] }
      match oracle st1.trace.length with
      | .err m => .exn m st2
      | .ok v => .ok { st2 with runData :=
          match v with
          | .null => st2.runData
          | _ => setA st2.runData node.id (wrapOutput v) }
    else
      let outputData :=
        if node.type = "n8n-nodes-base.manualTrigger" ∨
           node.type = "n8n-nodes-base.webhook" then
          jsOr inputData emptyItem
        else inputData
      .ok { st1 with runData :=
        match outputData with
        | .null => st1.runData
        | _ => setA st1.runData node.id (wrapOutput outputData) }

/-- The recursion of `executeNodeRecursive` (and the start-node loop of
`WorkflowExecution`), defunctionalized: `pending` is the concatenation of
the remaining iterations of every active `for` loop on the JS call stack,
innermost first. Executing a non-disabled node prepends `getNextNodes`
before the remaining work, which reproduces the JS depth-first order
exactly (a node's downstream closure completes before its next sibling
runs); an exception from `stepNode` aborts all pending work, exactly as a
thrown `ActivityFailure` unwinds every active loop. Fuel decreases per
visited node and bounds the length of the run; exhaustion with work left
is reported as `.fuelOut`. -/
def execLoop (oracle : Oracle) (allNodes : List INode)
    (connections : Connections) :
    Nat → List INode → ExecSt → ExecRes
  | 0, pending, st => if pending.isEmpty then .ok st else .fuelOut st
  | _ + 1, [], st => .ok st
  | fuel + 1, node :: rest, st =>
    match stepNode oracle allNodes connections node st with
    | .ok st' =>
      if node.disabled then
        execLoop oracle allNodes connections fuel rest st'
      else
        execLoop oracle allNodes connections fuel
          (getNextNodes node allNodes connections ++ rest) st'
    | r => r

/-- The workflow definition consumed by `WorkflowExecution`
(`nodes` plus `connections`; `pinData`/`executionData` are never read). -/
structure WorkflowInput where
  nodes : List INode
  connections : Connections

/-- The initial execution state of one invocation. -/
def emptySt : ExecSt := { runData := [], trace := [], execLog := [] }

/-- Embedding of `WorkflowExecution`: compute the start set with `findStartNodes` and
run `executeNodeRecursive` on each start node in order, from the empty
state; on normal return the value delivered to the caller is
`{ resultData: { runData } }` with the final state's `runData`. -/
def WorkflowExecution (fuel : Nat) (oracle : Oracle)
    (input : WorkflowInput) : ExecRes :=
  execLoop oracle input.nodes input.connections fuel
    (findStartNodes input.nodes input.connections) emptySt

/-- Did the outcome propagate an exception past the invocation boundary? -/
def ExecRes.isExn : ExecRes → Bool
  | .exn _ _ => true
  | _ => false

/-- Did the activity call complete normally? -/
def ActResult.isOk : ActResult → Bool
  | .ok _ => true
  | .err _ => false

/-- Written from the spec wording, for comparison against the code: some
connection of the given `connectionKind` number targets `name`. -/
def hasIncomingOfKind (connections : Connections) (kind : Int)
    (name : String) : Bool :=
  connections.any fun e => e.2.any fun oc => oc.2.any fun ca =>
    ca.any fun c => c.node == name && c.type == kind

/-- Written from the spec wording, for comparison against the code: some
connection of any kind targets `name`. -/
def hasIncomingAnyKind (connections : Connections) (name : String) : Bool :=
  connections.any fun e => e.2.any fun oc => oc.2.any fun ca =>
    ca.any fun c => c.node == name

/-- The numeric `connectionKind` of the default/primary data-flow edge
(the connection table encodes the kind as a number; `0` is the default
kind, other values are auxiliary kinds). -/
def primaryKind : Int := 0

/-- The names of the declared workflow nodes. -/
def nodeNames (nodes : List INode) : List String := nodes.map INode.name

/-- Remove from the connection table every connection whose target name
does not belong to the node list (a dangling target reference). -/
def pruneDanglingTargets (nodes : List INode) (connections : Connections) :
    Connections :=
  connections.map fun e => (e.1, e.2.map fun oc =>
    (oc.1, oc.2.map fun ca =>
      ca.filter fun c => (nodeNames nodes).contains c.node))

/-- Remove from the connection table every entry whose source name does
not belong to the node list (a dangling source reference). -/
def pruneDanglingSources (nodes : List INode) (connections : Connections) :
    Connections :=
  connections.filter fun e => (nodeNames nodes).contains e.1

/-- A node of an unregistered type (no activity, not a trigger), used by
the concrete example workflows. -/
def customNode (i n : String) : INode := ⟨i, n, "custom", false, .obj []⟩

/-- Diamond workflow nodes: `A` fans out to `B` and `C`, which both feed
`D`. -/
def diamondA : INode := customNode "a" "A"

/-- Node `B` of the diamond workflow. -/
def diamondB : INode := customNode "b" "B"

/-- Node `C` of the diamond workflow. -/
def diamondC : INode := customNode "c" "C"

/-- Node `D` of the diamond workflow, reachable from the start node `A`
through both `B` and `C`. -/
def diamondD : INode := customNode "d" "D"

/-- Connections of the diamond workflow. -/
def diamondConns : Connections :=
  [("A", [("0", [[⟨"B", 0, 0⟩, ⟨"C", 0, 0⟩]])]),
   ("B", [("0", [[⟨"D", 0, 0⟩]])]),
   ("C", [("0", [[⟨"D", 0, 0⟩]])])]

/-- The diamond workflow: an acyclic graph in which `D` is reachable from
the start set through two distinct paths. -/
def diamondWF : WorkflowInput := ⟨[diamondA, diamondB, diamondC, diamondD], diamondConns⟩

/-- An oracle for runs that must not reach the activity boundary. -/
def noCallOracle : Oracle := fun _ => .err "unexpected activity call"

/-- Boolean-gate workflow: the conditional node `G`
(`routeOnAttribute`, a registered activity type with one output slot per
route). -/
def gateG : INode := ⟨"g", "G", "n8n-nodes-base.routeOnAttribute", false, .obj []⟩

/-- Child of `G` connected to its output slot 0 (the true branch). -/
def gateT : INode := customNode "t" "T"

/-- Child of `G` connected to its output slot 1 (the false branch). -/
def gateF : INode := customNode "f" "F"

/-- Connections of the gate workflow: slot 0 feeds `T`, slot 1 feeds `F`. -/
def gateConns : Connections :=
  [("G", [("0", [[⟨"T", 0, 0⟩]]), ("1", [[⟨"F", 0, 0⟩]])])]

/-- The gate workflow. -/
def gateWF : WorkflowInput := ⟨[gateG, gateT, gateF], gateConns⟩

/-- Oracle for the gate workflow: `G` produces one item on slot 0 and an
empty slot 1 (the true output alone is non-empty). -/
def gateOracle : Oracle := fun k =>
  if k = 0 then .ok (.arr [.arr [.obj [("v", .num 1)]], .arr []])
  else .err "unexpected activity call"

/-- An oracle agreeing with `gateOracle` on the one consumed response but
differing everywhere after it. -/
def gateOracleVariant : Oracle := fun k =>
  if k = 0 then .ok (.arr [.arr [.obj [("v", .num 1)]], .arr []])
  else .ok (.num 99)

/-- A single registered-activity node (`httpRequest`) with no parents. -/
def soloHttp : INode := ⟨"h", "H", "n8n-nodes-base.httpRequest", false, .obj []⟩

/-- Workflow holding just the solo `httpRequest` node. -/
def soloWF : WorkflowInput := ⟨[soloHttp], []⟩

/-- Oracle whose every response is an activity failure. -/
def failOracle : Oracle := fun _ => .err "boom"

/-- Oracle whose every response succeeds with a number. -/
def okOracle : Oracle := fun _ => .ok (.num 5)

/-- Oracle whose every response succeeds with `null`, exercising the
`outputData !== null` store guard. -/
def nullOracle : Oracle := fun _ => .ok .null

/-- Fan-in example: parent `P1` of the aggregation workflow. -/
def aggP1 : INode := ⟨"p1", "P1", "n8n-nodes-base.generateFlowFile", false, .obj []⟩

/-- Fan-in example: parent `P2` of the aggregation workflow. -/
def aggP2 : INode := ⟨"p2", "P2", "n8n-nodes-base.generateFlowFile", false, .obj []⟩

/-- Fan-in example: the child `C` fed by both parents on the same target
input index. -/
def aggC : INode := customNode "c" "C"

/-- Connections of the fan-in example: `P1 -> C` and `P2 -> C`, both from
output slot 0 to target input index 0. -/
def aggConns : Connections :=
  [("P1", [("0", [[⟨"C", 0, 0⟩]])]),
   ("P2", [("0", [[⟨"C", 0, 0⟩]])])]

/-- Run data of the fan-in example, parameterized by the single-slot
output slices of the two parents. -/
def aggRunDataOf (s1 s2 : List JVal) : List (String × JVal) :=
  [("p1", .obj [("main", .arr [.arr s1])]),
   ("p2", .obj [("main", .arr [.arr s2])])]

/-- Start-set example: node `N1`. -/
def startN1 : INode := customNode "n1" "N1"

/-- Start-set example: node `N2`, targeted only by an auxiliary-kind
connection. -/
def startN2 : INode := customNode "n2" "N2"

/-- Start-set example connection table: one connection `N1 -> N2` whose
`type` (connection kind) is `1`, not the primary kind `0`. -/
def auxConns : Connections := [("N1", [("0", [[⟨"N2", 1, 0⟩]])])]

/-- A node whose `id` and `name` differ, to separate the two candidate
run-data keys. -/
def namedNode : INode := customNode "n1id" "NodeOne"

/-- Workflow holding just `namedNode`. -/
def namedWF : WorkflowInput := ⟨[namedNode], []⟩

/-- Every entry of a final run-data record is keyed by the id of a
declared node and wrapped as an object with the single key `main`. -/
def runDataShaped (nodes : List INode) (rd : List (String × JVal)) : Prop :=
  ∀ p ∈ rd, (∃ n, n ∈ nodes ∧ p.1 = n.id) ∧ ∃ m, p.2 = JVal.obj [("main", m)]

/-- A fold whose step ignores every element of the list returns its
seed. -/
theorem foldl_fixed {α β : Type} {f : β → α → β} :
    ∀ {l : List α} {b : β}, (∀ x ∈ l, ∀ a, f a x = a) → l.foldl f b = b
  | [], _, _ => rfl
  | x :: xs, b, h => by
    have hx : f b x = b := h x (List.mem_cons_self x xs) b
    simpa [List.foldl, hx] using
      foldl_fixed (fun y hy a => h y (List.mem_cons_of_mem x hy) a)

/-- An append-accumulating fold flattens to `flatMap`. -/
theorem foldl_append_bind {α β : Type} (f : α → List β) :
    ∀ (l : List α) (a : List β),
      l.foldl (fun acc x => acc ++ f x) a = a ++ l.flatMap f
  | [], a => by simp
  | x :: xs, a => by
    simp [List.foldl, foldl_append_bind f xs (a ++ f x)]

/-- Membership in an association list after a JS property write. -/
theorem mem_setA {α : Type} {k : String} {v : α} :
    ∀ {l : List (String × α)} {p : String × α},
      p ∈ setA l k v → p ∈ l ∨ p = (k, v)
  | [], p, h => by
    simp [setA] at h
    exact Or.inr h
  | (k1, v1) :: rest, p, h => by
    by_cases hk : k1 = k
    · simp [setA, hk] at h
      rcases h with h | h
      · exact Or.inr (by simp [h])
      · exact Or.inl (List.mem_cons_of_mem _ h)
    · simp [setA, hk] at h
      rcases h with h | h
      · exact Or.inl (by simp [h])
      · rcases mem_setA h with h2 | h2
        · exact Or.inl (List.mem_cons_of_mem _ h2)
        · exact Or.inr h2

/-- The keys present after a JS property write. -/
theorem mem_fst_setA {α : Type} {k : String} {v : α} :
    ∀ {l : List (String × α)} {a : String},
      a ∈ (setA l k v).map Prod.fst ↔ a ∈ l.map Prod.fst ∨ a = k
  | [], a => by simp [setA]
  | (k1, v1) :: rest, a => by
    by_cases hk : k1 = k
    · subst hk
      simp [setA]
      tauto
    · simp [setA, hk, @mem_fst_setA _ k v rest]
      tauto

/-- A JS property write preserves key uniqueness of a record. -/
theorem nodup_fst_setA {α : Type} {k : String} {v : α} :
    ∀ {l : List (String × α)},
      (l.map Prod.fst).Nodup → ((setA l k v).map Prod.fst).Nodup
  | [], _ => by simp [setA]
  | (k1, v1) :: rest, h => by
    rw [List.map_cons, List.nodup_cons] at h
    obtain ⟨h1, h2⟩ := h
    by_cases hk : k1 = k
    · subst hk
      have hset : setA ((k1, v1) :: rest) k1 v = (k1, v) :: rest := by
        simp [setA]
      rw [hset, List.map_cons, List.nodup_cons]
      exact ⟨h1, h2⟩
    · have hset : setA ((k1, v1) :: rest) k v = (k1, v1) :: setA rest k v := by
        simp [setA, hk]
      rw [hset, List.map_cons, List.nodup_cons]
      refine ⟨fun hmem => ?_, nodup_fst_setA h2⟩
      rcases mem_fst_setA.mp hmem with h3 | h3
      · exact h1 h3
      · exact hk h3

/-- The step `stepNode` either leaves `runData` unchanged or performs exactly one
JS property write under the node's id, storing an object whose single key
is `main`. -/
theorem stepNode_runData_cases (oracle : Oracle) (allNodes : List INode)
    (connections : Connections) (node : INode) (st : ExecSt) :
    (stepNode oracle allNodes connections node st).st.runData = st.runData ∨
      ∃ m, (stepNode oracle allNodes connections node st).st.runData =
        setA st.runData node.id (JVal.obj [("main", m)]) := by
  unfold stepNode
  by_cases hd : node.disabled
  · simp [hd, ExecRes.st]
  · by_cases ha : activityTypes.contains node.type
    · simp only [hd, ha, if_false, if_true, Bool.false_eq_true]
      cases horacle : oracle st.trace.length with
      | err m => simp [ExecRes.st]
      | ok v =>
        cases v with
        | null => simp [ExecRes.st]
        | str s => exact Or.inr ⟨_, rfl⟩
        | num n => exact Or.inr ⟨_, rfl⟩
        | arr l => exact Or.inr ⟨_, rfl⟩
        | obj l => exact Or.inr ⟨_, rfl⟩
    · simp only [hd, ha, if_false, Bool.false_eq_true]
      by_cases ht : node.type = "n8n-nodes-base.manualTrigger" ∨
          node.type = "n8n-nodes-base.webhook"
      · simp only [ht, if_true]
        exact Or.inr ⟨_, rfl⟩
      · simp only [ht, if_false]
        exact Or.inr ⟨_, rfl⟩

/-- A fold preserves any invariant its step preserves. -/
theorem foldl_preserves {α β : Type} {P : β → Prop} {f : β → α → β} :
    ∀ {l : List α} {b : β}, (∀ x ∈ l, ∀ a, P a → P (f a x)) → P b →
      P (l.foldl f b)
  | [], _, _, hb => hb
  | x :: xs, b, h, hb => by
    rw [List.foldl_cons]
    exact foldl_preserves (fun y hy => h y (List.mem_cons_of_mem x hy))
      (h x (List.mem_cons_self x xs) b hb)

/-- Every node produced by `getNextNodes` belongs to the node list it
resolved against. -/
theorem getNextNodes_subset {node : INode} {allNodes : List INode}
    {connections : Connections} :
    ∀ n ∈ getNextNodes node allNodes connections, n ∈ allNodes := by
  unfold getNextNodes
  cases hl : lookupA connections node.name with
  | none => intro n hn; exact absurd hn (List.not_mem_nil n)
  | some e =>
    refine @foldl_preserves _ _ (fun acc => ∀ n ∈ acc, n ∈ allNodes) _ _ _
      (fun oc _ acc hacc => ?_) (fun n hn => absurd hn (List.not_mem_nil n))
    refine @foldl_preserves _ _ (fun acc => ∀ n ∈ acc, n ∈ allNodes) _ _ _
      (fun ca _ acc2 hacc2 => ?_) hacc
    refine @foldl_preserves _ _ (fun acc => ∀ n ∈ acc, n ∈ allNodes) _ _ _
      (fun c _ acc3 hacc3 => ?_) hacc2
    cases hfind : allNodes.find? (fun n => n.name == c.node) with
    | none => exact hacc3
    | some nx =>
      by_cases hdup : (acc3.find? (fun n => n.id == nx.id)).isSome
      · simpa [hdup] using hacc3
      · simp only [hdup, if_false, Bool.false_eq_true]
        intro y hy
        rcases List.mem_append.mp hy with hy1 | hy1
        · exact hacc3 y hy1
        · rcases List.mem_singleton.mp hy1 with rfl
          exact List.mem_of_find?_eq_some hfind

/-- Every resolved start node belongs to the declared node list. -/
theorem findStartNodes_subset {nodes : List INode} {connections : Connections} :
    ∀ n ∈ findStartNodes nodes connections, n ∈ nodes := by
  intro n hn
  exact List.mem_of_mem_filter hn

/-- The driver preserves any state invariant that `stepNode` preserves for
nodes of the node list, along every pending node of the worklist. -/
theorem execLoop_preserves (oracle : Oracle) (allNodes : List INode)
    (connections : Connections) (P : ExecSt → Prop)
    (hP : ∀ node st, node ∈ allNodes → P st →
      P (stepNode oracle allNodes connections node st).st) :
    ∀ fuel pending st, (∀ n ∈ pending, n ∈ allNodes) → P st →
      P ((execLoop oracle allNodes connections fuel pending st).st)
  | 0, pending, st, _, hst => by
    cases pending <;> simpa [execLoop, ExecRes.st] using hst
  | fuel + 1, [], st, _, hst => by simpa [execLoop, ExecRes.st] using hst
  | fuel + 1, node :: rest, st, hmem, hst => by
    have hnode : node ∈ allNodes := hmem node (List.mem_cons_self _ _)
    have hst1 := hP node st hnode hst
    cases hstep : stepNode oracle allNodes connections node st with
    | ok st1 =>
      rw [hstep] at hst1
      simp only [execLoop, hstep]
      by_cases hd : node.disabled
      · simp only [hd, if_true]
        exact execLoop_preserves oracle allNodes connections P hP fuel rest st1
          (fun n hn => hmem n (List.mem_cons_of_mem _ hn)) hst1
      · simp only [hd, if_false, Bool.false_eq_true]
        refine execLoop_preserves oracle allNodes connections P hP fuel _ st1
          (fun n hn => ?_) hst1
        rcases List.mem_append.mp hn with hn1 | hn1
        · exact getNextNodes_subset n hn1
        · exact hmem n (List.mem_cons_of_mem _ hn1)
    | exn m st1 =>
      rw [hstep] at hst1
      simpa [execLoop, hstep, ExecRes.st] using hst1
    | fuelOut st1 =>
      rw [hstep] at hst1
      simpa [execLoop, hstep, ExecRes.st] using hst1

/-- C1, counterexample: in the acyclic diamond workflow the fan-in node
`D` (reachable from the start node through `B` and through `C`) is visited
by the driver twice in one invocation — the `'Executing node'` log records
its id twice — refuting at-most-once execution. -/
theorem c1_counterexample :
    ((WorkflowExecution 10 noCallOracle diamondWF).st.execLog.count "d") = 2 := by
  rfl

/-- C1 as amended: run-data keys stay pairwise distinct, so every node
has at most one entry in the final run data (the map is keyed uniquely by
node id and an entry is replaced in place when its node is executed
again); at-most-once execution itself does not hold — see the
counterexample. -/
theorem c1_rundata_keys_unique (fuel : Nat) (oracle : Oracle)
    (input : WorkflowInput) :
    (((WorkflowExecution fuel oracle input).st).runData.map Prod.fst).Nodup := by
  unfold WorkflowExecution
  refine execLoop_preserves oracle input.nodes input.connections
    (fun st => (st.runData.map Prod.fst).Nodup) ?_ fuel _ emptySt
    (fun n hn => findStartNodes_subset n hn) (by simp [emptySt])
  intro node st _ hst
  rcases stepNode_runData_cases oracle input.nodes input.connections node st with
    hc | ⟨v, hc⟩
  · rw [hc]; exact hst
  · rw [hc]; exact nodup_fst_setA hst

/-- C8 as amended: every entry of the final run data is stored under the
id of a declared workflow node (not under its name) and is wrapped as an
object with the single key `main`; no other key shape ever appears.
Presence is not guaranteed for every executed node: in the solo run under
the `null`-returning oracle, the node is executed (its id is logged) but
the `outputData !== null` guard skips the store and the run data stays
empty. -/
theorem c8_rundata_shape (fuel : Nat) (oracle : Oracle)
    (input : WorkflowInput) :
    runDataShaped input.nodes ((WorkflowExecution fuel oracle input).st).runData ∧
      (WorkflowExecution 10 nullOracle soloWF).st.execLog = ["h"] ∧
      (WorkflowExecution 10 nullOracle soloWF).st.runData = [] := by
  refine ⟨?_, rfl, rfl⟩
  unfold WorkflowExecution
  refine execLoop_preserves oracle input.nodes input.connections
    (fun st => runDataShaped input.nodes st.runData) ?_ fuel _ emptySt
    (fun n hn => findStartNodes_subset n hn) ?_
  · intro node st hnode hst
    rcases stepNode_runData_cases oracle input.nodes input.connections node st with
      hc | ⟨v, hc⟩
    · rw [hc]; exact hst
    · rw [hc]
      intro p hp
      rcases mem_setA hp with hp1 | hp1
      · exact hst p hp1
      · subst hp1
        exact ⟨⟨node, hnode, rfl⟩, ⟨_, rfl⟩⟩
  · intro p hp
    simp [emptySt] at hp

/-- C2, counterexample: in the gate workflow, `G`'s activity returns one
item on the true output (slot 0) and an empty false output (slot 1), yet
the false-output child `F` is executed and has an entry in the final run
data. -/
theorem c2_counterexample :
    (lookupA (WorkflowExecution 10 gateOracle gateWF).st.runData "f").isSome = true := by
  rfl

/-- C3, counterexample: when the solo node's activity reports an error,
`WorkflowExecution` propagates the failure as an exception past its own
boundary instead of returning a result that carries it. -/
theorem c3_counterexample :
    (WorkflowExecution 10 failOracle soloWF).isExn = true := by
  rfl

/-- C4, counterexample: with two parents each producing one item (`1` and
`2`) on slots connected to the same target input index, the computed input
holds only the second parent's item — it is not the concatenation
containing both. -/
theorem c4_counterexample :
    getNodeInputData aggC [aggP1, aggP2, aggC] aggConns
        (aggRunDataOf [.num 1] [.num 2]) = .obj [("0", .arr [.num 2])] ∧
      JVal.obj [("0", .arr [.num 2])] ≠ .obj [("0", .arr [.num 1, .num 2])] := by
  exact ⟨rfl, by simp⟩

/-- C5, counterexample: `N2` is targeted only by a connection of
non-primary kind `1`, so no primary-kind connection targets it, yet it is
not in the resolved start set — the code disqualifies on incoming
connections of any kind. -/
theorem c5_counterexample :
    hasIncomingOfKind auxConns primaryKind "N2" = false ∧
      ((findStartNodes [startN1, startN2] auxConns).map INode.name).contains "N2" =
        false := by
  exact ⟨rfl, rfl⟩

/-- C6, counterexample: the parentless `httpRequest` node receives the
empty object `{}` at the activity boundary, which is not the single empty
item `[{ json: {} }]`. -/
theorem c6_counterexample :
    (WorkflowExecution 10 okOracle soloWF).st.trace.map Prod.snd = [JVal.obj []] ∧
      JVal.obj [] ≠ emptyItem := by
  exact ⟨rfl, by simp [emptyItem]⟩

/-- C8, counterexample: the executed node with id `n1id` and name
`NodeOne` is stored in the final run data under its id; no entry exists
under its name. -/
theorem c8_counterexample :
    lookupA (WorkflowExecution 10 noCallOracle namedWF).st.runData "NodeOne" = none ∧
      (lookupA (WorkflowExecution 10 noCallOracle namedWF).st.runData "n1id").isSome =
        true := by
  exact ⟨rfl, rfl⟩

/-- A false `any` gives falsity of the predicate at every element. -/
theorem any_eq_false_forall {α : Type} {l : List α} {p : α → Bool}
    (h : l.any p = false) : ∀ x ∈ l, p x = false := by
  intro x hx
  by_contra hc
  have hpx : p x = true := by revert hc; cases p x <;> simp
  have h2 : l.any p = true := List.any_eq_true.mpr ⟨x, hx, hpx⟩
  rw [h] at h2
  exact Bool.false_ne_true h2

/-- Flattening of `connectionTargets`: the target names of all connections, in
table order. -/
theorem connectionTargets_eq (connections : Connections) :
    connectionTargets connections =
      connections.flatMap fun e => e.2.flatMap fun oc =>
        oc.2.flatMap fun ca => ca.flatMap fun c => [c.node] := by
  unfold connectionTargets
  simp only [foldl_append_bind]
  simp

/-- The collected target set membership agrees with the spec-shaped
predicate `hasIncomingAnyKind`. -/
theorem contains_connectionTargets (connections : Connections) (name : String) :
    (connectionTargets connections).contains name =
      hasIncomingAnyKind connections name := by
  apply Bool.coe_iff_coe.mp
  rw [connectionTargets_eq]
  unfold hasIncomingAnyKind
  simp only [List.contains_eq_any_beq, List.any_eq_true, List.mem_flatMap,
    List.mem_singleton, beq_iff_eq]
  constructor
  · rintro ⟨x, ⟨e, he, oc, hoc, ca, hca, c, hc, rfl⟩, rfl⟩
    exact ⟨e, he, oc, hoc, ca, hca, c, hc, rfl⟩
  · rintro ⟨e, he, oc, hoc, ca, hca, c, hc, hname⟩
    exact ⟨c.node, ⟨e, he, oc, hoc, ca, hca, c, hc, rfl⟩, hname.symm⟩

/-- C5 as amended: the resolved start set equals exactly the set of nodes
with zero incoming connections of any kind — the connection's kind field
is never consulted, so an auxiliary-kind connection also disqualifies its
target from being a start node. -/
theorem c5_start_set_any_kind (nodes : List INode) (connections : Connections) :
    findStartNodes nodes connections =
      nodes.filter (fun n => !hasIncomingAnyKind connections n.name) := by
  unfold findStartNodes
  refine List.filter_congr (fun n _ => ?_)
  rw [contains_connectionTargets]

/-- C6 as amended: a node targeted by no connection receives the empty
object `{}` as its aggregated input — a defined value, but not the single
empty item `[{json: {}}]`; consequently the trigger-branch fallback
`inputData || [{json: {}}]` also evaluates to `{}` (the fallback is dead
code, because `{}` is truthy). -/
theorem c6_no_incoming_empty_object (node : INode) (allNodes : List INode)
    (connections : Connections) (runData : List (String × JVal))
    (h : hasIncomingAnyKind connections node.name = false) :
    getNodeInputData node allNodes connections runData = .obj [] ∧
      jsOr (getNodeInputData node allNodes connections runData) emptyItem =
        .obj [] := by
  have hmain : getNodeInputData node allNodes connections runData = .obj [] := by
    unfold getNodeInputData
    unfold hasIncomingAnyKind at h
    congr 1
    refine foldl_fixed (fun e he a => ?_)
    have h2 := any_eq_false_forall h e he
    refine foldl_fixed (fun oc hoc a2 => ?_)
    have h3 := any_eq_false_forall h2 oc hoc
    refine foldl_fixed (fun ca hca a3 => ?_)
    have h4 := any_eq_false_forall h3 ca hca
    refine foldl_fixed (fun c hc a4 => ?_)
    have h5 := any_eq_false_forall h4 c hc
    simp [h5]
  exact ⟨hmain, by rw [hmain]; rfl⟩

/-- Witness for C6 as amended, at the parentless solo node. -/
theorem c6_witness :
    getNodeInputData soloHttp [soloHttp] [] [] = .obj [] ∧
      jsOr (getNodeInputData soloHttp [soloHttp] [] []) emptyItem = .obj [] :=
  c6_no_incoming_empty_object soloHttp [soloHttp] [] [] rfl

/-- Association-list lookup commutes with mapping over the values. -/
theorem lookupA_map_val {α β : Type} (g : α → β) :
    ∀ (l : List (String × α)) (k : String),
      lookupA (l.map (fun e => (e.1, g e.2))) k = (lookupA l k).map g
  | [], _ => rfl
  | (k1, v1) :: rest, k => by
    by_cases hk : k1 = k <;> simp [lookupA, hk, lookupA_map_val g rest k]

/-- Folds with pointwise-equal step functions agree. -/
theorem foldl_funext {α β : Type} {f g : β → α → β}
    (h : ∀ a x, f a x = g a x) :
    ∀ (l : List α) (b : β), l.foldl f b = l.foldl g b
  | [], _ => rfl
  | x :: xs, b => by
    rw [List.foldl_cons, List.foldl_cons, h, foldl_funext h xs]

/-- Filtering away only elements the step ignores does not change a
fold. -/
theorem foldl_filter_id {α β : Type} {p : α → Bool} {f : β → α → β}
    (h : ∀ x, p x = false → ∀ b, f b x = b) :
    ∀ (l : List α) (b : β), (l.filter p).foldl f b = l.foldl f b
  | [], _ => rfl
  | x :: xs, b => by
    cases hp : p x with
    | true => simp [List.filter_cons, hp, foldl_filter_id h xs]
    | false => simp [List.filter_cons, hp, h x hp, foldl_filter_id h xs]

/-- A name lookup over the node list fails for a name that is not a node
name. -/
theorem find_name_none {allNodes : List INode} {s : String}
    (h : (nodeNames allNodes).contains s = false) :
    allNodes.find? (fun n => n.name == s) = none := by
  rw [List.find?_eq_none]
  intro n hn hc
  have hmem : s ∈ nodeNames allNodes :=
    List.mem_map.mpr ⟨n, hn, beq_iff_eq.mp hc⟩
  have h2 : (nodeNames allNodes).contains s = true := List.elem_iff.mpr hmem
  rw [h] at h2
  exact Bool.false_ne_true h2

/-- Connections whose target name is not a node name are skipped by
`getNextNodes` at their point of use: pruning them changes nothing. -/
theorem getNextNodes_pruneT (node : INode) (nodes : List INode)
    (conns : Connections) :
    getNextNodes node nodes (pruneDanglingTargets nodes conns) =
      getNextNodes node nodes conns := by
  unfold getNextNodes pruneDanglingTargets
  rw [lookupA_map_val]
  cases hl : lookupA conns node.name with
  | none => rfl
  | some e =>
    simp only [Option.map_some']
    rw [List.foldl_map]
    refine foldl_funext (fun a oc => ?_) e []
    dsimp only
    rw [List.foldl_map]
    refine foldl_funext (fun a2 ca => ?_) oc.2 a
    dsimp only
    refine foldl_filter_id (fun c hc b => ?_) ca a2
    dsimp only
    simp [find_name_none hc]

/-- Connections whose target name is not a node name are skipped by
`getNodeInputData` at their point of use, provided the receiving node is a
declared node: pruning them changes nothing. -/
theorem getNodeInputData_pruneT (node : INode) (nodes : List INode)
    (conns : Connections) (rd : List (String × JVal))
    (hn : (nodeNames nodes).contains node.name = true) :
    getNodeInputData node nodes (pruneDanglingTargets nodes conns) rd =
      getNodeInputData node nodes conns rd := by
  unfold getNodeInputData pruneDanglingTargets
  congr 1
  rw [List.foldl_map]
  refine foldl_funext (fun a e => ?_) conns []
  dsimp only
  rw [List.foldl_map]
  refine foldl_funext (fun a2 oc => ?_) e.2 a
  dsimp only
  rw [List.foldl_map]
  refine foldl_funext (fun a3 ca => ?_) oc.2 a2
  dsimp only
  refine foldl_filter_id (fun c hc b => ?_) ca a3
  have hne : (c.node == node.name) = false := by
    by_contra hbc
    have hbt : (c.node == node.name) = true := by
      revert hbc; cases c.node == node.name <;> simp
    rw [beq_iff_eq.mp hbt] at hc
    rw [hc] at hn
    exact Bool.false_ne_true hn
  simp [hne]

/-- Entries of the connection table whose source name is not a node name
are skipped by `getNodeInputData` at their point of use: pruning them
changes nothing. -/
theorem getNodeInputData_pruneS (node : INode) (nodes : List INode)
    (conns : Connections) (rd : List (String × JVal)) :
    getNodeInputData node nodes (pruneDanglingSources nodes conns) rd =
      getNodeInputData node nodes conns rd := by
  unfold getNodeInputData pruneDanglingSources
  congr 1
  refine foldl_filter_id (fun e he b => ?_) conns []
  refine foldl_fixed (fun oc _ a2 => ?_)
  refine foldl_fixed (fun ca _ a3 => ?_)
  refine foldl_fixed (fun c _ a4 => ?_)
  by_cases hcn : (c.node == node.name) = true
  · simp [hcn, find_name_none he]
  · simp [hcn]

/-- The step `stepNode` reads the connection table only through
`getNodeInputData`. -/
theorem stepNode_conns_congr {oracle : Oracle} {allNodes : List INode}
    {cs1 cs2 : Connections} {node : INode} {st : ExecSt}
    (h : ∀ rd, getNodeInputData node allNodes cs1 rd =
      getNodeInputData node allNodes cs2 rd) :
    stepNode oracle allNodes cs1 node st = stepNode oracle allNodes cs2 node st := by
  unfold stepNode
  simp only [h]

/-- The flattened targets of a filtered connection array are the filtered
flattened targets. -/
theorem flatMap_node_filter (q : String → Bool) :
    ∀ ca : List Conn,
      (ca.filter (fun c => q c.node)).flatMap (fun c => [c.node]) =
        (ca.flatMap (fun c => [c.node])).filter q
  | [] => rfl
  | c :: cs => by
    cases hq : q c.node <;>
      simp [List.filter_cons, hq, flatMap_node_filter q cs]

/-- Target names surviving the target pruning are exactly the original
targets that are node names, in order. -/
theorem connectionTargets_pruneT_eq (nodes : List INode) (conns : Connections) :
    connectionTargets (pruneDanglingTargets nodes conns) =
      (connectionTargets conns).filter
        (fun s => (nodeNames nodes).contains s) := by
  rw [connectionTargets_eq, connectionTargets_eq]
  unfold pruneDanglingTargets
  simp only [List.flatMap_map, List.filter_flatMap, flatMap_node_filter]

/-- Pruning dangling-target connections does not change the resolved
start set. -/
theorem findStartNodes_pruneT (nodes : List INode) (conns : Connections) :
    findStartNodes nodes (pruneDanglingTargets nodes conns) =
      findStartNodes nodes conns := by
  unfold findStartNodes
  refine List.filter_congr (fun n hn => ?_)
  have hcn : (nodeNames nodes).contains n.name = true :=
    List.elem_iff.mpr (List.mem_map.mpr ⟨n, hn, rfl⟩)
  have heq : (connectionTargets (pruneDanglingTargets nodes conns)).contains n.name
      = (connectionTargets conns).contains n.name := by
    rw [connectionTargets_pruneT_eq]
    apply Bool.coe_iff_coe.mp
    constructor
    · intro h
      exact List.elem_iff.mpr
        (List.mem_filter.mp (List.elem_iff.mp h)).1
    · intro h
      exact List.elem_iff.mpr
        (List.mem_filter.mpr ⟨List.elem_iff.mp h, hcn⟩)
  rw [heq]

/-- Pruning dangling-target connections does not change the driver on a
worklist of declared nodes. -/
theorem execLoop_pruneT (oracle : Oracle) (nodes : List INode)
    (conns : Connections) :
    ∀ fuel pending st, (∀ n ∈ pending, n ∈ nodes) →
      execLoop oracle nodes (pruneDanglingTargets nodes conns) fuel pending st =
        execLoop oracle nodes conns fuel pending st
  | 0, pending, st, _ => rfl
  | fuel + 1, [], st, _ => rfl
  | fuel + 1, node :: rest, st, hmem => by
    have hname : (nodeNames nodes).contains node.name = true :=
      List.elem_iff.mpr
        (List.mem_map.mpr ⟨node, hmem node (List.mem_cons_self _ _), rfl⟩)
    have hstep : stepNode oracle nodes (pruneDanglingTargets nodes conns) node st =
        stepNode oracle nodes conns node st :=
      stepNode_conns_congr
        (fun rd => getNodeInputData_pruneT node nodes conns rd hname)
    cases hs : stepNode oracle nodes conns node st with
    | ok st1 =>
      simp only [execLoop, hstep, hs]
      by_cases hd : node.disabled
      · simp only [hd, if_true]
        exact execLoop_pruneT oracle nodes conns fuel rest st1
          (fun n h2 => hmem n (List.mem_cons_of_mem _ h2))
      · simp only [hd, if_false, Bool.false_eq_true, getNextNodes_pruneT]
        refine execLoop_pruneT oracle nodes conns fuel _ st1 (fun n h2 => ?_)
        rcases List.mem_append.mp h2 with h3 | h3
        · exact getNextNodes_subset n h3
        · exact hmem n (List.mem_cons_of_mem _ h3)
    | exn m st1 => simp only [execLoop, hstep, hs]
    | fuelOut st1 => simp only [execLoop, hstep, hs]

/-- When every activity response is a success, `stepNode` always returns
normally. -/
theorem stepNode_ok_of_ok_oracle {oracle : Oracle}
    (h : ∀ k, (oracle k).isOk = true) (allNodes : List INode)
    (connections : Connections) (node : INode) (st : ExecSt) :
    ∃ st1, stepNode oracle allNodes connections node st = .ok st1 := by
  unfold stepNode
  by_cases hd : node.disabled
  · exact ⟨st, by simp [hd]⟩
  · by_cases ha : activityTypes.contains node.type
    · simp only [hd, ha, if_false, if_true, Bool.false_eq_true]
      cases horacle : oracle st.trace.length with
      | err m => exact absurd (horacle ▸ h st.trace.length) (by simp [ActResult.isOk])
      | ok v => exact ⟨_, rfl⟩
    · simp only [hd, ha, if_false, Bool.false_eq_true]
      exact ⟨_, rfl⟩

/-- When every activity response is a success, the driver never ends in an
exception. -/
theorem execLoop_no_exn {oracle : Oracle} (h : ∀ k, (oracle k).isOk = true)
    (allNodes : List INode) (connections : Connections) :
    ∀ fuel pending st,
      (execLoop oracle allNodes connections fuel pending st).isExn = false
  | 0, pending, st => by cases pending <;> simp [execLoop, ExecRes.isExn]
  | fuel + 1, [], st => by simp [execLoop, ExecRes.isExn]
  | fuel + 1, node :: rest, st => by
    obtain ⟨st1, hstep⟩ :=
      stepNode_ok_of_ok_oracle h allNodes connections node st
    simp only [execLoop, hstep]
    by_cases hd : node.disabled
    · simpa [hd] using execLoop_no_exn h allNodes connections fuel rest st1
    · simpa [hd] using execLoop_no_exn h allNodes connections fuel
        (getNextNodes node allNodes connections ++ rest) st1

/-- C3 as amended: the only way the invocation raises past its own
boundary is an activity failure — when every activity response succeeds,
`WorkflowExecution` never propagates an exception; when a node's activity
reports an error, the failure is thrown to the caller (see the
counterexample), and the returned value on success carries only
`resultData.runData`, with no status/error fields. -/
theorem c3_no_raise_without_activity_failure (fuel : Nat) {oracle : Oracle}
    (input : WorkflowInput) (h : ∀ k, (oracle k).isOk = true) :
    (WorkflowExecution fuel oracle input).isExn = false :=
  execLoop_no_exn h input.nodes input.connections fuel _ emptySt

/-- Witness for C3 as amended, at the solo workflow under an all-success
oracle. -/
theorem c3_witness : (WorkflowExecution 10 okOracle soloWF).isExn = false :=
  c3_no_raise_without_activity_failure 10 soloWF (fun _ => rfl)

/-- C10: a non-disabled node whose type has no registered activity and is
not a trigger type is executed without consulting the activity boundary
(the trace is unchanged): its aggregated input is passed through
unchanged as its output, stored into the run data under its id, and the
driver continues with the node's children ahead of the remaining work. -/
theorem c10_unknown_type_passthrough (oracle : Oracle) (allNodes : List INode)
    (connections : Connections) (fuel : Nat) (node : INode) (rest : List INode)
    (st : ExecSt) (hd : node.disabled = false)
    (ha : activityTypes.contains node.type = false)
    (ht1 : node.type ≠ "n8n-nodes-base.manualTrigger")
    (ht2 : node.type ≠ "n8n-nodes-base.webhook") :
    execLoop oracle allNodes connections (fuel + 1) (node :: rest) st =
      execLoop oracle allNodes connections fuel
        (getNextNodes node allNodes connections ++ rest)
        { runData := setA st.runData node.id
            (wrapOutput (getNodeInputData node allNodes connections st.runData)),
          trace := st.trace,
          execLog := st.execLog ++ [node.id] } := by
  have hstep : stepNode oracle allNodes connections node st =
      .ok { runData := setA st.runData node.id
              (wrapOutput (getNodeInputData node allNodes connections st.runData)),
            trace := st.trace,
            execLog := st.execLog ++ [node.id] } := by
    unfold stepNode
    rw [if_neg (by simp [hd]), if_neg (by rw [ha]; exact Bool.false_ne_true),
      if_neg (fun hc => hc.elim ht1 ht2)]
    rfl
  simp only [execLoop, hstep, hd, if_false, Bool.false_eq_true]

/-- Witness for C10, at the head node of the diamond workflow. -/
theorem c10_witness :
    execLoop noCallOracle [diamondA, diamondB, diamondC, diamondD] diamondConns
        10 [diamondA] emptySt =
      execLoop noCallOracle [diamondA, diamondB, diamondC, diamondD] diamondConns
        9 (getNextNodes diamondA [diamondA, diamondB, diamondC, diamondD]
            diamondConns ++ [])
        { runData := setA emptySt.runData diamondA.id
            (wrapOutput (getNodeInputData diamondA
              [diamondA, diamondB, diamondC, diamondD] diamondConns
              emptySt.runData)),
          trace := emptySt.trace,
          execLog := emptySt.execLog ++ [diamondA.id] } :=
  c10_unknown_type_passthrough noCallOracle _ _ 9 diamondA [] emptySt
    rfl rfl (by simp [diamondA, customNode]) (by simp [diamondA, customNode])

/-- C2 as amended: after a conditional node's activity returns any array
of output slots, the driver schedules every child produced by
`getNextNodes` — which enumerates the connections of all output indices
and never inspects slot contents — so children on branches whose output
slot is empty are executed as well. -/
theorem c2_all_children_scheduled (oracle : Oracle) (allNodes : List INode)
    (connections : Connections) (fuel : Nat) (node : INode) (rest : List INode)
    (st : ExecSt) (slots : List JVal) (hd : node.disabled = false)
    (ha : activityTypes.contains node.type = true)
    (ho : oracle st.trace.length = .ok (.arr slots)) :
    execLoop oracle allNodes connections (fuel + 1) (node :: rest) st =
      execLoop oracle allNodes connections fuel
        (getNextNodes node allNodes connections ++ rest)
        { runData := setA st.runData node.id (.obj [("main", .arr slots)]),
          trace := st.trace ++
            [(node, getNodeInputData node allNodes connections st.runData)],
          execLog := st.execLog ++ [node.id] } := by
  have hstep : stepNode oracle allNodes connections node st =
      .ok { runData := setA st.runData node.id (.obj [("main", .arr slots)]),
            trace := st.trace ++
              [(node, getNodeInputData node allNodes connections st.runData)],
            execLog := st.execLog ++ [node.id] } := by
    unfold stepNode
    rw [if_neg (by simp [hd]), if_pos ha]
    simp only [ho]
    rfl
  simp only [execLoop, hstep, hd, if_false, Bool.false_eq_true]

/-- Witness for C2 as amended, at the gate workflow's conditional node
with one item on the true output and an empty false output. -/
theorem c2_witness :
    execLoop gateOracle [gateG, gateT, gateF] gateConns 10 [gateG] emptySt =
      execLoop gateOracle [gateG, gateT, gateF] gateConns 9
        (getNextNodes gateG [gateG, gateT, gateF] gateConns ++ [])
        { runData := setA emptySt.runData gateG.id
            (.obj [("main", .arr [.arr [.obj [("v", .num 1)]], .arr []])]),
          trace := emptySt.trace ++
            [(gateG, getNodeInputData gateG [gateG, gateT, gateF] gateConns
                emptySt.runData)],
          execLog := emptySt.execLog ++ [gateG.id] } :=
  c2_all_children_scheduled gateOracle _ _ 9 gateG [] emptySt
    [.arr [.obj [("v", .num 1)]], .arr []] rfl rfl rfl

/-- C4 as amended: for any slices produced by the two parents on the slot
feeding `C`, the computed input binds the shared target input index `0` to
the slice of the later-enumerated parent alone; the earlier parent's slice
is overwritten, not concatenated. -/
theorem c4_last_parent_wins (s1 s2 : List JVal) :
    getNodeInputData aggC [aggP1, aggP2, aggC] aggConns (aggRunDataOf s1 s2) =
      .obj [("0", .arr s2)] := by
  rfl

/-- C7: a connection referencing a node name absent from the node list is
skipped at its point of use and execution continues unchanged — removing
every dangling-target connection does not change the result of
`WorkflowExecution` at all, and removing every dangling-source table entry
does not change input aggregation; in particular nothing is thrown and the
invocation returns exactly what it returns on the pruned table. -/
theorem c7_dangling_connections_skipped (fuel : Nat) (oracle : Oracle)
    (nodes : List INode) (conns : Connections) :
    WorkflowExecution fuel oracle ⟨nodes, conns⟩ =
      WorkflowExecution fuel oracle ⟨nodes, pruneDanglingTargets nodes conns⟩ ∧
    ∀ (node : INode) (rd : List (String × JVal)),
      getNodeInputData node nodes conns rd =
        getNodeInputData node nodes (pruneDanglingSources nodes conns) rd := by
  constructor
  · unfold WorkflowExecution
    rw [findStartNodes_pruneT]
    exact (execLoop_pruneT oracle nodes conns fuel _ emptySt
      (fun n hn => findStartNodes_subset n hn)).symm
  · intro node rd
    exact (getNodeInputData_pruneS node nodes conns rd).symm

/-- The step `stepNode` leaves the trace unchanged or appends exactly the one
activity invocation it makes. -/
theorem stepNode_trace (oracle : Oracle) (allNodes : List INode)
    (connections : Connections) (node : INode) (st : ExecSt) :
    (stepNode oracle allNodes connections node st).st.trace = st.trace ∨
      (stepNode oracle allNodes connections node st).st.trace =
        st.trace ++ [(node, getNodeInputData node allNodes connections st.runData)] := by
  unfold stepNode
  by_cases hd : node.disabled
  · simp [hd, ExecRes.st]
  · by_cases ha : activityTypes.contains node.type
    · simp only [hd, ha, Bool.false_eq_true, if_false, eq_self_iff_true, if_true]
      cases horacle : oracle st.trace.length with
      | err m => right; rfl
      | ok v => right; rfl
    · simp only [hd, ha, Bool.false_eq_true, if_false]
      left
      rfl

/-- The trace never shrinks across `stepNode`. -/
theorem stepNode_trace_mono (oracle : Oracle) (allNodes : List INode)
    (connections : Connections) (node : INode) (st : ExecSt) :
    st.trace.length ≤ (stepNode oracle allNodes connections node st).st.trace.length := by
  rcases stepNode_trace oracle allNodes connections node st with h | h <;> simp [h]

/-- A non-disabled node of a registered activity type appends exactly one
activity invocation to the trace. -/
theorem stepNode_activity_trace {oracle : Oracle} {allNodes : List INode}
    {connections : Connections} {node : INode} {st : ExecSt}
    (hd : node.disabled = false) (ha : activityTypes.contains node.type = true) :
    (stepNode oracle allNodes connections node st).st.trace =
      st.trace ++ [(node, getNodeInputData node allNodes connections st.runData)] := by
  unfold stepNode
  simp only [hd, ha, Bool.false_eq_true, if_false, eq_self_iff_true, if_true]
  cases horacle : oracle st.trace.length with
  | err m => rfl
  | ok v => rfl

/-- The trace never shrinks across the driver. -/
theorem execLoop_trace_mono (oracle : Oracle) (allNodes : List INode)
    (connections : Connections) :
    ∀ fuel pending st,
      st.trace.length ≤
        ((execLoop oracle allNodes connections fuel pending st).st).trace.length
  | 0, pending, st => by cases pending <;> simp [execLoop, ExecRes.st]
  | fuel + 1, [], st => by simp [execLoop, ExecRes.st]
  | fuel + 1, node :: rest, st => by
    have hm := stepNode_trace_mono oracle allNodes connections node st
    cases hs : stepNode oracle allNodes connections node st with
    | ok st1 =>
      rw [hs] at hm
      simp only [ExecRes.st] at hm
      simp only [execLoop, hs]
      by_cases hd : node.disabled
      · simp only [hd, if_true]
        exact le_trans hm (execLoop_trace_mono oracle allNodes connections fuel rest st1)
      · simp only [hd, if_false, Bool.false_eq_true]
        exact le_trans hm (execLoop_trace_mono oracle allNodes connections fuel
          (getNextNodes node allNodes connections ++ rest) st1)
    | exn m st1 =>
      rw [hs] at hm
      simpa [execLoop, hs, ExecRes.st] using hm
    | fuelOut st1 =>
      rw [hs] at hm
      simpa [execLoop, hs, ExecRes.st] using hm

/-- The step `stepNode` consults the oracle only at the current trace length. -/
theorem stepNode_oracle_congr {o1 o2 : Oracle} (allNodes : List INode)
    (connections : Connections) (node : INode) (st : ExecSt)
    (h : o1 st.trace.length = o2 st.trace.length) :
    stepNode o1 allNodes connections node st =
      stepNode o2 allNodes connections node st := by
  unfold stepNode
  by_cases hd : node.disabled
  · simp [hd]
  · by_cases ha : activityTypes.contains node.type
    · simp only [hd, ha, Bool.false_eq_true, if_false, eq_self_iff_true,
        if_true, h]
    · simp only [hd, ha, Bool.false_eq_true, if_false]

/-- The step `stepNode` never consults the oracle for a node with no registered
activity. -/
theorem stepNode_no_activity {o1 o2 : Oracle} {allNodes : List INode}
    {connections : Connections} {node : INode} {st : ExecSt}
    (ha : activityTypes.contains node.type = false) :
    stepNode o1 allNodes connections node st =
      stepNode o2 allNodes connections node st := by
  unfold stepNode
  by_cases hd : node.disabled
  · simp [hd]
  · simp only [hd, ha, Bool.false_eq_true, if_false]

/-- Two oracles agreeing on all responses the first run actually consumes
drive the loop to identical results. -/
theorem execLoop_oracle_agree (o1 o2 : Oracle) (allNodes : List INode)
    (connections : Connections) :
    ∀ fuel pending st,
      (∀ k, st.trace.length ≤ k →
        k < ((execLoop o1 allNodes connections fuel pending st).st).trace.length →
        o1 k = o2 k) →
      execLoop o1 allNodes connections fuel pending st =
        execLoop o2 allNodes connections fuel pending st
  | 0, pending, st, _ => rfl
  | fuel + 1, [], st, _ => rfl
  | fuel + 1, node :: rest, st, h => by
    cases hd : node.disabled with
    | true =>
      have hstep1 : stepNode o1 allNodes connections node st = .ok st := by
        unfold stepNode; simp [hd]
      have hstep2 : stepNode o2 allNodes connections node st = .ok st := by
        unfold stepNode; simp [hd]
      have hun : execLoop o1 allNodes connections (fuel + 1) (node :: rest) st =
          execLoop o1 allNodes connections fuel rest st := by
        simp only [execLoop, hstep1, hd, if_true]
      simp only [execLoop, hstep1, hstep2, hd, if_true]
      refine execLoop_oracle_agree o1 o2 allNodes connections fuel rest st
        (fun k hk1 hk2 => ?_)
      exact h k hk1 (by rw [hun]; exact hk2)
    | false =>
      cases ha : activityTypes.contains node.type with
      | true =>
        have hbound : st.trace.length <
            ((execLoop o1 allNodes connections (fuel + 1)
              (node :: rest) st).st).trace.length := by
          have ht := @stepNode_activity_trace o1 allNodes connections node st hd ha
          cases hs1 : stepNode o1 allNodes connections node st with
          | ok st1 =>
            rw [hs1] at ht
            simp only [ExecRes.st] at ht
            simp only [execLoop, hs1, hd, Bool.false_eq_true, if_false]
            calc st.trace.length < st1.trace.length := by simp [ht]
              _ ≤ _ := execLoop_trace_mono o1 allNodes connections fuel _ st1
          | exn m st1 =>
            rw [hs1] at ht
            simp only [ExecRes.st] at ht
            simp only [execLoop, hs1, ExecRes.st]
            simp [ht]
          | fuelOut st1 =>
            rw [hs1] at ht
            simp only [ExecRes.st] at ht
            simp only [execLoop, hs1, ExecRes.st]
            simp [ht]
        have h0 : o1 st.trace.length = o2 st.trace.length :=
          h st.trace.length (le_refl _) hbound
        have hstep12 : stepNode o1 allNodes connections node st =
            stepNode o2 allNodes connections node st :=
          stepNode_oracle_congr allNodes connections node st h0
        cases hs : stepNode o1 allNodes connections node st with
        | ok st1 =>
          have hs2 : stepNode o2 allNodes connections node st = .ok st1 :=
            hstep12.symm.trans hs
          have hun : execLoop o1 allNodes connections (fuel + 1) (node :: rest) st =
              execLoop o1 allNodes connections fuel
                (getNextNodes node allNodes connections ++ rest) st1 := by
            simp only [execLoop, hs, hd, Bool.false_eq_true, if_false]
          have ht := @stepNode_activity_trace o1 allNodes connections node st hd ha
          rw [hs] at ht
          simp only [ExecRes.st] at ht
          simp only [execLoop, hs, hs2, hd, Bool.false_eq_true, if_false]
          refine execLoop_oracle_agree o1 o2 allNodes connections fuel _ st1
            (fun k hk1 hk2 => ?_)
          refine h k ?_ (by rw [hun]; exact hk2)
          calc st.trace.length ≤ st1.trace.length := by simp [ht]
            _ ≤ k := hk1
        | exn m st1 =>
          have hs2 : stepNode o2 allNodes connections node st = .exn m st1 :=
            hstep12.symm.trans hs
          simp only [execLoop, hs, hs2]
        | fuelOut st1 =>
          have hs2 : stepNode o2 allNodes connections node st = .fuelOut st1 :=
            hstep12.symm.trans hs
          simp only [execLoop, hs, hs2]
      | false =>
        have hstep12 : stepNode o1 allNodes connections node st =
            stepNode o2 allNodes connections node st :=
          stepNode_no_activity ha
        cases hs : stepNode o1 allNodes connections node st with
        | ok st1 =>
          have hs2 : stepNode o2 allNodes connections node st = .ok st1 :=
            hstep12.symm.trans hs
          have hun : execLoop o1 allNodes connections (fuel + 1) (node :: rest) st =
              execLoop o1 allNodes connections fuel
                (getNextNodes node allNodes connections ++ rest) st1 := by
            simp only [execLoop, hs, hd, Bool.false_eq_true, if_false]
          have hm := stepNode_trace_mono o1 allNodes connections node st
          rw [hs] at hm
          simp only [ExecRes.st] at hm
          simp only [execLoop, hs, hs2, hd, Bool.false_eq_true, if_false]
          refine execLoop_oracle_agree o1 o2 allNodes connections fuel _ st1
            (fun k hk1 hk2 => ?_)
          exact h k (le_trans hm hk1) (by rw [hun]; exact hk2)
        | exn m st1 =>
          have hs2 : stepNode o2 allNodes connections node st = .exn m st1 :=
            hstep12.symm.trans hs
          simp only [execLoop, hs, hs2]
        | fuelOut st1 =>
          have hs2 : stepNode o2 allNodes connections node st = .fuelOut st1 :=
            hstep12.symm.trans hs
          simp only [execLoop, hs, hs2]

/-- C9: the engine is deterministic relative to the activity boundary —
two runs on the same workflow definition whose oracles agree on every
activity response the first run consumes produce identical results: the
same activity-call trace (same nodes, same order, same input payloads),
the same run data, and the same outcome. The engine's own logic reads
nothing else. -/
theorem c9_deterministic_replay (fuel : Nat) (o1 o2 : Oracle)
    (input : WorkflowInput)
    (h : ∀ k, k < ((WorkflowExecution fuel o1 input).st).trace.length →
      o1 k = o2 k) :
    WorkflowExecution fuel o1 input = WorkflowExecution fuel o2 input := by
  unfold WorkflowExecution at h ⊢
  exact execLoop_oracle_agree o1 o2 input.nodes input.connections fuel _ emptySt
    (fun k _ hk2 => h k hk2)

/-- Witness for C9: the gate run consumes exactly one activity response,
so an oracle differing only from the second response on yields the
identical run. -/
theorem c9_witness :
    WorkflowExecution 10 gateOracle gateWF =
      WorkflowExecution 10 gateOracleVariant gateWF :=
  c9_deterministic_replay 10 gateOracle gateOracleVariant gateWF
    (fun k hk => by
      have hk1 : k < 1 := hk
      have hk0 : k = 0 := Nat.lt_one_iff.mp hk1
      subst hk0
      rfl)
